import Mathlib

set_option maxHeartbeats 1000000

/-!
Verification development for the TileDB-Cloud-UDFs repository.

The repository has two operational modules:

* `public_udfs.py` — the UDF catalog, containing `ingest_csv` and
  `ingest_vcf_samples`.  The heart of `ingest_vcf_samples` is the
  round-robin shard selection `sample_uris[sp_i::sp_n]` (a Python
  extended slice) followed by a single call to the external
  `ds.ingest_samples(...)`; the function returns the selected shard.
* `register_udfs.py` — the registration manager: `udf_exists`
  (existence lookup against the remote registry listing) and
  `add_public_udf` (strip the function's globals, then
  register-or-update under its own name).

External collaborators (the TileDB Cloud client, the array store and
the tiledbvcf library) are opaque; where a property quantifies over
their behaviour the relevant call is modelled as an explicit event or
state transition, with the semantics the specification assigns to it.
-/

/-! ### Python extended-slice selection, `l[i::k]`

`strideAux g l c` walks `l`, skipping `c` elements, then repeatedly
taking one element and skipping `g` more.  `sliceStride l i k` embeds
the Python slice expression `l[i::k]` for `i ≥ 0` and `k ≥ 1` (the
only regime the program uses: `(sp_i, sp_n)` is a partition
index/count pair with `0 ≤ sp_i < sp_n`). -/

def strideAux {α : Type} (g : Nat) : List α → Nat → List α
  | [], _ => []
  | a :: rest, 0 => a :: strideAux g rest g
  | _ :: rest, c + 1 => strideAux g rest c

/-- Embedding of the Python slice `l[i::k]` (stride-`k` slice starting
at offset `i`), as used for `this_shard = sample_uris[sp_i::sp_n]` in
`ingest_vcf_samples`.  Meaningful for `k ≥ 1`. -/
def sliceStride {α : Type} (l : List α) (i k : Nat) : List α :=
  strideAux (k - 1) l i

/-- The concatenation of all shards `0 ≤ i < k`, in shard order. -/
def joinShards {α : Type} (S : List α) (k : Nat) : List α :=
  (List.range k).flatMap (fun i => sliceStride S i k)

/-! ### The `ingest_vcf_samples` UDF (`src/public_udfs.py`) -/

/-- Python `Union[str, Sequence[str]]` for the `sample_uris` argument. -/
inductive StrOrList where
  | str (s : String)
  | list (l : List String)
  deriving DecidableEq, Repr

/-- Embeds `if isinstance(sample_uris, str): sample_uris = [sample_uris]`. -/
def normalizeSampleUris : StrOrList → List String
  | .str s => [s]
  | .list l => l

/-- Python truthiness of an `Optional[str]`: `None` and the empty
string are falsy, any other string is truthy (used by
`"separate" if contig else "merged"`). -/
def strOptTruthy : Option String → Bool
  | none => false
  | some s => !s.isEmpty

/-- The string carried inside an `Optional[str]` (only consulted when
it is truthy, hence `some` and non-empty). -/
def contigValue : Option String → String
  | none => ""
  | some s => s

/-- Argument record of the single `ds.ingest_samples(...)` call issued
by `ingest_vcf_samples`.  `contigs_to_keep_separate = none` means the
keyword argument was not passed at all (the `**{} `branch). -/
structure IngestSamplesCall where
  sample_uris : List String
  total_memory_budget_mb : Nat
  threads : Nat
  contig_mode : String
  contigs_to_keep_separate : Option (List String)
  resume : Bool
  deriving DecidableEq, Repr

/-- Observable outcome of one invocation of `ingest_vcf_samples`: the
ingestion call it issued and the value it returned. -/
structure VcfIngestOutcome where
  call : IngestSamplesCall
  ret : List String
  deriving DecidableEq, Repr

/-- Embedding of `ingest_vcf_samples` from `src/public_udfs.py`.  The
logging, the `tiledbvcf.Dataset` open (external, read-only here) and
the `stats`/`tiledb_config` plumbing do not affect the ingestion call
arguments or the return value; the partition pair is used with
`0 ≤ sp_i` and `sp_n ≥ 1` per the sharding contract. -/
def ingest_vcf_samples (array_uri : String) (contig : Option String)
    (sample_uris : StrOrList) (partition_idx_count : Nat × Nat)
    (tiledb_config : Option (List (String × String)))
    (memory_budget_mb : Nat) (threads : Nat)
    (stats : Bool) (resume : Bool) : VcfIngestOutcome :=
  let uris := normalizeSampleUris sample_uris
  let sp_i := partition_idx_count.1
  let sp_n := partition_idx_count.2
  let this_shard := sliceStride uris sp_i sp_n
  { call :=
      { sample_uris := this_shard
        total_memory_budget_mb := memory_budget_mb
        threads := threads
        contig_mode := if strOptTruthy contig then "separate" else "merged"
        contigs_to_keep_separate :=
          if strOptTruthy contig then some [contigValue contig] else none
        resume := resume }
    ret := this_shard }

example :
    sliceStride ["a", "b", "c", "d", "e"] 1 2 = ["b", "d"] := by decide

example :
    (ingest_vcf_samples "u" none (.list ["a", "b", "c"]) (0, 2) none 1 1
      false false).ret = ["a", "c"] := by decide

/-! ### Properties of the stride selection -/

/-- Element `j` of the stride selection is element `c + j * (g + 1)` of
the underlying list (both `none` past the respective ends). -/
theorem strideAux_getElem {α : Type} (g : Nat) :
    ∀ (l : List α) (c j : Nat), (strideAux g l c)[j]? = l[c + j * (g + 1)]? := by
  intro l
  induction l with
  | nil => intro c j; simp [strideAux]
  | cons a rest ih =>
    intro c j
    cases c with
    | zero =>
      cases j with
      | zero => simp [strideAux]
      | succ j =>
        have e : 0 + (j + 1) * (g + 1) = g + j * (g + 1) + 1 := by ring
        rw [e]
        simp only [strideAux, List.getElem?_cons_succ]
        exact ih g j
    | succ c =>
      have e : c + 1 + j * (g + 1) = c + j * (g + 1) + 1 := by omega
      rw [e]
      simp only [strideAux, List.getElem?_cons_succ]
      exact ih c j

/-- Arithmetic step for the shard-length computation. -/
theorem shardLen_step (n g : Nat) :
    (n - g + g) / (g + 1) + 1 = (n + 1 + g) / (g + 1) := by
  rcases Nat.le_total g n with h | h
  · rw [Nat.sub_add_cancel h]
    rw [show n + 1 + g = n + (g + 1) from by omega,
      Nat.add_div_right _ (Nat.succ_pos g)]
  · rw [show n - g + g = g from by omega, Nat.div_eq_of_lt (by omega)]
    have e : (n + 1 + g) / (g + 1) = 1 :=
      Nat.div_eq_of_lt_le (by omega) (by omega)
    omega

/-- Length of the stride selection. -/
theorem strideAux_length {α : Type} (g : Nat) :
    ∀ (l : List α) (c : Nat),
      (strideAux g l c).length = (l.length - c + g) / (g + 1) := by
  intro l
  induction l with
  | nil =>
    intro c
    simp only [strideAux, List.length_nil]
    rw [show (0 : Nat) - c + g = g from by omega, Nat.div_eq_of_lt (by omega)]
  | cons a rest ih =>
    intro c
    cases c with
    | zero =>
      simp only [strideAux, List.length_cons, ih g]
      rw [show rest.length + 1 - 0 + g = rest.length + 1 + g from by omega]
      exact shardLen_step rest.length g
    | succ c =>
      simp only [strideAux, List.length_cons, ih c]
      congr 1
      omega

/-- The stride selection is a sublist of the underlying list. -/
theorem strideAux_sublist {α : Type} (g : Nat) :
    ∀ (l : List α) (c : Nat), (strideAux g l c).Sublist l := by
  intro l
  induction l with
  | nil => intro c; simp [strideAux]
  | cons a rest ih =>
    intro c
    cases c with
    | zero =>
      simp only [strideAux]
      exact (ih g).cons₂ a
    | succ c =>
      simp only [strideAux]
      exact (ih c).cons a

/-- Element `j` of the Python slice `S[i::k]` is element `i + j * k`
of `S`, for stride `k ≥ 1`. -/
theorem sliceStride_getElem {α : Type} (S : List α) (i k j : Nat) (hk : 1 ≤ k) :
    (sliceStride S i k)[j]? = S[i + j * k]? := by
  have h := strideAux_getElem (k - 1) S i j
  rwa [show k - 1 + 1 = k from by omega] at h

/-- Length of the Python slice `S[i::k]` for stride `k ≥ 1`: the
natural-number form of the ceiling `⌈(len S - i) / k⌉`. -/
theorem sliceStride_length {α : Type} (S : List α) (i k : Nat) (hk : 1 ≤ k) :
    (sliceStride S i k).length = (S.length - i + (k - 1)) / k := by
  have h := strideAux_length (k - 1) S i
  rwa [show k - 1 + 1 = k from by omega] at h

/-- The Python slice `S[i::k]` is a sublist of `S`. -/
theorem sliceStride_sublist {α : Type} (S : List α) (i k : Nat) :
    (sliceStride S i k).Sublist S :=
  strideAux_sublist (k - 1) S i

/-- Membership in a shard, in terms of positions of `S`. -/
theorem sliceStride_mem {α : Type} (S : List α) (i k : Nat) (hk : 1 ≤ k)
    (x : α) : x ∈ sliceStride S i k ↔ ∃ j, S[i + j * k]? = some x := by
  rw [List.mem_iff_getElem?]
  constructor
  · rintro ⟨j, hj⟩
    exact ⟨j, by rw [← sliceStride_getElem S i k j hk]; exact hj⟩
  · rintro ⟨j, hj⟩
    exact ⟨j, by rw [sliceStride_getElem S i k j hk]; exact hj⟩

/-! ### Claims C2, C3, C9, C10 about `ingest_vcf_samples` -/

/-- C2: for every ordered sample list `S` and pair `(i, k)` with
`0 ≤ i < k`, the shard selected by `ingest_vcf_samples` (the
`sample_uris` it passes to `ds.ingest_samples`) is exactly the
stride-`k` slice of `S` starting at offset `i`: its element at every
position `j` is `S[i + j * k]` (and it ends exactly when that index
leaves `S`), so it is the subsequence `S[i], S[i+k], S[i+2k], ...` in
that order. -/
theorem c2_stride_slice (array_uri : String) (contig : Option String)
    (S : List String) (i k : Nat)
    (tiledb_config : Option (List (String × String)))
    (memory_budget_mb threads : Nat) (stats resume : Bool)
    (hik : i < k) :
    ∀ j : Nat,
      (ingest_vcf_samples array_uri contig (.list S) (i, k) tiledb_config
        memory_budget_mb threads stats resume).call.sample_uris[j]? =
      S[i + j * k]? := by
  intro j
  show (sliceStride S i k)[j]? = S[i + j * k]?
  exact sliceStride_getElem S i k j (by omega)

/-- Witness for C2 at a concrete input. -/
theorem c2_stride_slice_witness :
    1 < 2 ∧
    (ingest_vcf_samples "u" none (.list ["a", "b", "c", "d"]) (1, 2) none 7 4
      false false).call.sample_uris[1]? = ["a", "b", "c", "d"][1 + 1 * 2]? :=
  ⟨by decide,
    c2_stride_slice "u" none ["a", "b", "c", "d"] 1 2 none 7 4 false false
      (by decide) 1⟩

/-- C3: `ingest_vcf_samples` returns exactly the list of sample URIs it
passed to the ingestion call (the selected shard), not the full input
list; and for a partition count `k ≥ 2` and an input list of at least
two elements (so that the samples are distributed across at least two
shards), the returned list is a proper sub-list of the input. -/
theorem c3_returns_shard (array_uri : String) (contig : Option String)
    (S : List String) (i k : Nat)
    (tiledb_config : Option (List (String × String)))
    (memory_budget_mb threads : Nat) (stats resume : Bool)
    (hk : 2 ≤ k) (hS : 2 ≤ S.length) :
    (ingest_vcf_samples array_uri contig (.list S) (i, k) tiledb_config
        memory_budget_mb threads stats resume).ret =
      (ingest_vcf_samples array_uri contig (.list S) (i, k) tiledb_config
        memory_budget_mb threads stats resume).call.sample_uris ∧
    (ingest_vcf_samples array_uri contig (.list S) (i, k) tiledb_config
        memory_budget_mb threads stats resume).ret = sliceStride S i k ∧
    (ingest_vcf_samples array_uri contig (.list S) (i, k) tiledb_config
        memory_budget_mb threads stats resume).ret.Sublist S ∧
    (ingest_vcf_samples array_uri contig (.list S) (i, k) tiledb_config
        memory_budget_mb threads stats resume).ret ≠ S := by
  refine ⟨rfl, rfl, sliceStride_sublist S i k, ?_⟩
  have h1 : (sliceStride S i k).length = (S.length - i + (k - 1)) / k :=
    sliceStride_length S i k (by omega)
  have h2 : (S.length - i + (k - 1)) / k ≤ (S.length + k - 1) / k :=
    Nat.div_le_div_right (by omega)
  have h3 : (S.length + k - 1) / k < S.length := by
    rw [Nat.div_lt_iff_lt_mul (by omega)]
    have h4 := Nat.add_le_mul hS hk
    omega
  intro hEq
  have h5 := congrArg List.length hEq
  show False
  rw [show (ingest_vcf_samples array_uri contig (.list S) (i, k) tiledb_config
      memory_budget_mb threads stats resume).ret = sliceStride S i k from rfl]
    at h5
  omega

/-- Witness for C3 at a concrete input. -/
theorem c3_returns_shard_witness :
    2 ≤ 2 ∧ 2 ≤ (["a", "b", "c"] : List String).length ∧
    ((ingest_vcf_samples "u" none (.list ["a", "b", "c"]) (0, 2) none 7 4
        false false).ret =
      (ingest_vcf_samples "u" none (.list ["a", "b", "c"]) (0, 2) none 7 4
        false false).call.sample_uris ∧
     (ingest_vcf_samples "u" none (.list ["a", "b", "c"]) (0, 2) none 7 4
        false false).ret = sliceStride ["a", "b", "c"] 0 2 ∧
     (ingest_vcf_samples "u" none (.list ["a", "b", "c"]) (0, 2) none 7 4
        false false).ret.Sublist ["a", "b", "c"] ∧
     (ingest_vcf_samples "u" none (.list ["a", "b", "c"]) (0, 2) none 7 4
        false false).ret ≠ ["a", "b", "c"]) :=
  ⟨by decide, by decide,
    c3_returns_shard "u" none ["a", "b", "c"] 0 2 none 7 4 false false
      (by decide) (by decide)⟩

/-- C9: if a contig name is supplied (a non-empty string), the
ingestion call is issued with contig mode "separate" and that contig
as the only entry of `contigs_to_keep_separate`; if no contig is
supplied (Python-falsy: `None` or the empty string), the call is
issued with contig mode "merged" and without the
`contigs_to_keep_separate` keyword. -/
theorem c9_contig_mode (array_uri : String) (contig : Option String)
    (sample_uris : StrOrList) (partition_idx_count : Nat × Nat)
    (tiledb_config : Option (List (String × String)))
    (memory_budget_mb threads : Nat) (stats resume : Bool) :
    (∀ c : String, contig = some c → c.isEmpty = false →
      (ingest_vcf_samples array_uri contig sample_uris partition_idx_count
          tiledb_config memory_budget_mb threads stats resume).call.contig_mode
        = "separate" ∧
      (ingest_vcf_samples array_uri contig sample_uris partition_idx_count
          tiledb_config memory_budget_mb threads stats
          resume).call.contigs_to_keep_separate = some [c]) ∧
    (strOptTruthy contig = false →
      (ingest_vcf_samples array_uri contig sample_uris partition_idx_count
          tiledb_config memory_budget_mb threads stats resume).call.contig_mode
        = "merged" ∧
      (ingest_vcf_samples array_uri contig sample_uris partition_idx_count
          tiledb_config memory_budget_mb threads stats
          resume).call.contigs_to_keep_separate = none) := by
  constructor
  · intro c hc hce
    subst hc
    have ht : strOptTruthy (some c) = true := by
      simp [strOptTruthy, hce]
    constructor
    · show (if strOptTruthy (some c) then "separate" else "merged") = "separate"
      rw [ht]
      rfl
    · show (if strOptTruthy (some c) then some [contigValue (some c)] else none)
        = some [c]
      rw [ht]
      rfl
  · intro hf
    constructor
    · show (if strOptTruthy contig then "separate" else "merged") = "merged"
      rw [hf]
      rfl
    · show (if strOptTruthy contig then some [contigValue contig] else none)
        = none
      rw [hf]
      rfl

/-- Witness for C9 at concrete inputs: a supplied contig and an absent
one. -/
theorem c9_contig_mode_witness :
    ((ingest_vcf_samples "u" (some "chr1") (.list ["a"]) (0, 1) none 7 4 false
        false).call.contig_mode = "separate" ∧
     (ingest_vcf_samples "u" (some "chr1") (.list ["a"]) (0, 1) none 7 4 false
        false).call.contigs_to_keep_separate = some ["chr1"]) ∧
    ((ingest_vcf_samples "u" none (.list ["a"]) (0, 1) none 7 4 false
        false).call.contig_mode = "merged" ∧
     (ingest_vcf_samples "u" none (.list ["a"]) (0, 1) none 7 4 false
        false).call.contigs_to_keep_separate = none) :=
  ⟨(c9_contig_mode "u" (some "chr1") (.list ["a"]) (0, 1) none 7 4 false
      false).1 "chr1" rfl (by decide),
   (c9_contig_mode "u" none (.list ["a"]) (0, 1) none 7 4 false
      false).2 (by decide)⟩

/-- C10: a single string `s` given as `sample_uris` is normalized to
the one-element list `[s]` before sharding, so with partition pair
`(0, 1)` the function ingests and returns exactly `[s]`, and with any
pair `(i, k)` with `i ≥ 1` (and partition count `k ≥ 1`) it ingests
and returns the empty list, without error. -/
theorem c10_scalar_normalization (array_uri : String)
    (contig : Option String) (s : String) (i k : Nat)
    (tiledb_config : Option (List (String × String)))
    (memory_budget_mb threads : Nat) (stats resume : Bool)
    (hk : 1 ≤ k) :
    (ingest_vcf_samples array_uri contig (.str s) (0, 1) tiledb_config
        memory_budget_mb threads stats resume).ret = [s] ∧
    (ingest_vcf_samples array_uri contig (.str s) (0, 1) tiledb_config
        memory_budget_mb threads stats resume).call.sample_uris = [s] ∧
    (1 ≤ i →
      (ingest_vcf_samples array_uri contig (.str s) (i, k) tiledb_config
          memory_budget_mb threads stats resume).ret = [] ∧
      (ingest_vcf_samples array_uri contig (.str s) (i, k) tiledb_config
          memory_budget_mb threads stats resume).call.sample_uris = []) := by
  refine ⟨rfl, rfl, ?_⟩
  intro hi
  obtain ⟨j, rfl⟩ : ∃ j, i = j + 1 := ⟨i - 1, by omega⟩
  constructor
  · show sliceStride [s] (j + 1) k = []
    simp [sliceStride, strideAux]
  · show sliceStride [s] (j + 1) k = []
    simp [sliceStride, strideAux]

/-- Witness for C10 at a concrete input. -/
theorem c10_scalar_normalization_witness :
    1 ≤ 1 ∧
    (ingest_vcf_samples "u" none (.str "x") (0, 1) none 7 4 false
      false).ret = ["x"] ∧
    (ingest_vcf_samples "u" none (.str "x") (1, 1) none 7 4 false
      false).ret = [] :=
  ⟨by decide,
   (c10_scalar_normalization "u" none "x" 1 1 none 7 4 false false
     (by decide)).1,
   ((c10_scalar_normalization "u" none "x" 1 1 none 7 4 false false
     (by decide)).2.2 (by decide)).1⟩

/-! ### Claim C1: round-robin partition coverage -/

/-- Shard 0 of a cons: take the head, then continue as shard `m` of the
tail (stride `m + 1`). -/
theorem sliceStride_cons_zero {α : Type} (a : α) (rest : List α) (m : Nat) :
    sliceStride (a :: rest) 0 (m + 1) = a :: sliceStride rest m (m + 1) := rfl

/-- Shard `i + 1` of a cons is shard `i` of the tail. -/
theorem sliceStride_cons_succ {α : Type} (a : α) (rest : List α)
    (i k : Nat) : sliceStride (a :: rest) (i + 1) k = sliceStride rest i k :=
  rfl

/-- A flatMap of empty lists is empty. -/
theorem flatMap_nil_fun {α β : Type} (L : List α) :
    L.flatMap (fun _ => ([] : List β)) = [] := by
  induction L with
  | nil => rfl
  | cons a rest ih => simp [List.flatMap_cons, ih]

/-- Reindexing a flatMap over successors. -/
theorem flatMap_map_succ {α : Type} (L : List Nat) (f : Nat → List α) :
    (L.map Nat.succ).flatMap f = L.flatMap (fun i => f (i + 1)) :=
  List.flatMap_map ..

/-- The concatenation of the `k = m + 1` round-robin shards of `S` is a
permutation of `S`. -/
theorem joinShards_perm_succ {α : Type} (m : Nat) :
    ∀ S : List α, List.Perm (joinShards S (m + 1)) S := by
  intro S
  induction S with
  | nil =>
    have h : joinShards ([] : List α) (m + 1) = [] := by
      show (List.range (m + 1)).flatMap
        (fun i => sliceStride ([] : List α) i (m + 1)) = []
      have h2 : ∀ i : Nat, sliceStride ([] : List α) i (m + 1) = [] := by
        intro i
        rfl
      simp only [h2]
      exact flatMap_nil_fun _
    rw [h]
  | cons a rest ih =>
    have step1 : joinShards (a :: rest) (m + 1)
        = a :: (sliceStride rest m (m + 1)
            ++ (List.range m).flatMap (fun i => sliceStride rest i (m + 1))) := by
      show (List.range (m + 1)).flatMap
          (fun i => sliceStride (a :: rest) i (m + 1)) = _
      rw [List.range_succ_eq_map m, List.flatMap_cons, flatMap_map_succ]
      simp only [sliceStride_cons_succ, sliceStride_cons_zero]
      rfl
    have step2 : joinShards rest (m + 1)
        = (List.range m).flatMap (fun i => sliceStride rest i (m + 1))
            ++ sliceStride rest m (m + 1) := by
      show (List.range (m + 1)).flatMap
          (fun i => sliceStride rest i (m + 1)) = _
      rw [List.range_succ m, List.flatMap_append]
      simp [List.flatMap_cons]
    rw [step1]
    refine List.Perm.cons a ?_
    refine List.Perm.trans List.perm_append_comm ?_
    rw [← step2]
    exact ih

/-- The concatenation of the `k ≥ 1` round-robin shards of `S` is a
permutation of `S`. -/
theorem joinShards_perm {α : Type} (S : List α) (k : Nat) (hk : 1 ≤ k) :
    List.Perm (joinShards S k) S := by
  obtain ⟨m, rfl⟩ : ∃ m, k = m + 1 := ⟨k - 1, by omega⟩
  exact joinShards_perm_succ m S

/-- Two distinct shards of a duplicate-free list share no element:
their positions in `S` are congruent to the distinct indices `i ≠ j`
modulo `k`. -/
theorem sliceStride_disjoint {α : Type} (S : List α) (hnd : S.Nodup)
    (i j k : Nat) (hik : i < k) (hjk : j < k) (hne : i ≠ j) (x : α)
    (hxi : x ∈ sliceStride S i k) (hxj : x ∈ sliceStride S j k) : False := by
  obtain ⟨a, ha⟩ := (sliceStride_mem S i k (by omega) x).mp hxi
  obtain ⟨b, hb⟩ := (sliceStride_mem S j k (by omega) x).mp hxj
  have hlen : i + a * k < S.length := (List.getElem?_eq_some.mp ha).1
  have heq : S[i + a * k]? = S[j + b * k]? := by rw [ha, hb]
  have hidx := List.getElem?_inj hlen hnd heq
  have h1 : (i + a * k) % k = (j + b * k) % k := by rw [hidx]
  rw [Nat.add_mul_mod_self_right, Nat.add_mul_mod_self_right,
    Nat.mod_eq_of_lt hik, Nat.mod_eq_of_lt hjk] at h1
  exact hne h1

/-- C1 counterexample: the claim quantifies over every sample list, but
for a list containing a repeated sample URI the shards are not pairwise
disjoint (and their concatenation has duplicates): with
`S = ["a", "a"]` and `k = 2`, both shards equal `["a"]`. -/
theorem c1_counterexample :
    ¬ List.Disjoint
      (ingest_vcf_samples "u" none (.list ["a", "a"]) (0, 2) none 7 4 false
        false).ret
      (ingest_vcf_samples "u" none (.list ["a", "a"]) (1, 2) none 7 4 false
        false).ret := by
  intro h
  exact h
    (show "a" ∈ (ingest_vcf_samples "u" none (.list ["a", "a"]) (0, 2) none 7
      4 false false).ret by decide)
    (show "a" ∈ (ingest_vcf_samples "u" none (.list ["a", "a"]) (1, 2) none 7
      4 false false).ret by decide)

/-- C1 (amended): for every sample list `S` of pairwise-distinct
samples and every partition count `k ≥ 1`, the shards produced by
`ingest_vcf_samples` for the partition pairs `(i, k)`, `0 ≤ i < k`, are
the stride slices `sliceStride S i k`; their concatenation is a
permutation of `S` (so their union equals `S` as a set) and has no
duplicates; the shard for `(i, k)` has length
`(S.length - i + (k - 1)) / k`, the natural-number form of
`⌈(S.length - i) / k⌉`; and the shards are pairwise disjoint. -/
theorem c1_round_robin_amended (S : List String) (k : Nat) (hk : 1 ≤ k)
    (hnd : S.Nodup) :
    (∀ (i : Nat) (au : String) (contig : Option String)
        (cfg : Option (List (String × String))) (mb th : Nat) (st rs : Bool),
      (ingest_vcf_samples au contig (.list S) (i, k) cfg mb th st rs).ret
        = sliceStride S i k) ∧
    List.Perm (joinShards S k) S ∧
    (∀ x, x ∈ joinShards S k ↔ x ∈ S) ∧
    (joinShards S k).Nodup ∧
    (∀ i, i < k →
      (sliceStride S i k).length = (S.length - i + (k - 1)) / k) ∧
    (∀ i j, i < k → j < k → i ≠ j →
      List.Disjoint (sliceStride S i k) (sliceStride S j k)) := by
  have hperm := joinShards_perm S k hk
  refine ⟨fun i au contig cfg mb th st rs => rfl, hperm,
    fun x => hperm.mem_iff, hperm.nodup_iff.mpr hnd,
    fun i hi => sliceStride_length S i k hk, ?_⟩
  intro i j hi hj hne x hxi hxj
  exact sliceStride_disjoint S hnd i j k hi hj hne x hxi hxj

/-- Witness for C1 (amended) at a concrete input. -/
theorem c1_round_robin_witness :
    (1 ≤ 2 ∧ (["a", "b", "c"] : List String).Nodup) ∧
    ((∀ (i : Nat) (au : String) (contig : Option String)
        (cfg : Option (List (String × String))) (mb th : Nat) (st rs : Bool),
      (ingest_vcf_samples au contig (.list ["a", "b", "c"]) (i, 2) cfg mb th
        st rs).ret = sliceStride ["a", "b", "c"] i 2) ∧
    List.Perm (joinShards ["a", "b", "c"] 2) ["a", "b", "c"] ∧
    (∀ x, x ∈ joinShards ["a", "b", "c"] 2 ↔ x ∈ ["a", "b", "c"]) ∧
    (joinShards ["a", "b", "c"] 2).Nodup ∧
    (∀ i, i < 2 →
      (sliceStride ["a", "b", "c"] i 2).length
        = ((["a", "b", "c"] : List String).length - i + (2 - 1)) / 2) ∧
    (∀ i j, i < 2 → j < 2 → i ≠ j →
      List.Disjoint (sliceStride ["a", "b", "c"] i 2)
        (sliceStride ["a", "b", "c"] j 2))) :=
  ⟨⟨by decide, by decide⟩,
    c1_round_robin_amended ["a", "b", "c"] 2 (by decide) (by decide)⟩

/-! ### The registration manager (`src/register_udfs.py`)

`udf_exists` asks the remote client for the namespace's entries of
kind `USER_DEFINED_FUNCTION`, searching by the UDF name, and scans the
answer; `add_public_udf` strips the function's globals with
`types.FunctionType(fnc.__code__, {})` and then registers or updates
under the function's own name.  The remote client is external: its
answer to the listing call is passed in explicitly, and the
register/update calls are modelled with the whole-object replacement
semantics the specification assigns to them. -/

/-- A Python code object: its `co_name`, parameter signature and an
opaque instruction stream. -/
structure CodeObject where
  co_name : String
  params : List String
  instrs : String
  deriving DecidableEq, Repr

/-- A Python function value: a code object plus its `__globals__`
environment (names bound to opaque captured values). -/
structure PyFunction where
  code : CodeObject
  globals : List (String × String)
  deriving DecidableEq, Repr

/-- Embeds `types.FunctionType(code, globals)`: a function built from
exactly the given code object and global environment. -/
def FunctionType (code : CodeObject)
    (globals : List (String × String)) : PyFunction :=
  { code := code, globals := globals }

/-- A Python function's `__name__`; for a function built by
`types.FunctionType(fnc.__code__, {})` it is the code object's
`co_name`. -/
def PyFunction.name (f : PyFunction) : String :=
  f.code.co_name

/-- An entry of the remote registry listing (already restricted to one
namespace and to kind `USER_DEFINED_FUNCTION`, as `udf_exists`
requests). -/
structure RegistryEntry where
  name : String
  body : PyFunction
  deriving DecidableEq, Repr

/-- Character-list helper: does the first list begin the second? -/
def strStartsWith : List Char → List Char → Bool
  | [], _ => true
  | _ :: _, [] => false
  | c :: cs, d :: ds => c == d && strStartsWith cs ds

/-- Character-list helper: does the first list occur inside the
second? -/
def strHasSub (q : List Char) : List Char → Bool
  | [] => q.isEmpty
  | d :: ds => strStartsWith q (d :: ds) || strHasSub q ds

/-- Substring test on strings (the `search=` semantics of the remote
listing: an entry is listed when the query occurs in its name). -/
def nameHasSub (q n : String) : Bool :=
  strHasSub q.toList n.toList

theorem strStartsWith_refl : ∀ l : List Char, strStartsWith l l = true := by
  intro l
  induction l with
  | nil => rfl
  | cons c cs ih => simp [strStartsWith, ih]

theorem strHasSub_refl (l : List Char) : strHasSub l l = true := by
  cases l with
  | nil => rfl
  | cons d ds => simp [strHasSub, strStartsWith_refl]

theorem nameHasSub_refl (s : String) : nameHasSub s s = true :=
  strHasSub_refl s.toList

/-- Modelled from the spec: the external
`list_arrays(file_type=[USER_DEFINED_FUNCTION], namespace=ns, search=q)`
call, answered honestly from the namespace's registry `reg`: the
entries whose name contains the query (so an entry named exactly `q`
is always listed). -/
def list_arrays (reg : List RegistryEntry) (q : String) : List RegistryEntry :=
  reg.filter (fun e => nameHasSub q e.name)

/-- Outcome of the remote listing call as observed by `udf_exists`:
the call may raise, may return a response whose `arrays` field is
`None`, or may return an actual list of entries. -/
inductive ListingResult where
  | failure
  | degenerate
  | arrays (l : List RegistryEntry)
  deriving DecidableEq, Repr

/-- Errors surfaced by the registration manager: a raised listing call
propagating through `udf_exists`, and the bare `StopIteration` escaping
from the generator's `.__next__()`. -/
inductive PyError where
  | listingFailed
  | stopIteration
  deriving DecidableEq, Repr

/-- Embedding of `udf_exists` from `src/register_udfs.py`:
`return True if arrays and (array for array in arrays if array.name ==
udf_name).__next__() else False`.  A raised listing call propagates; a
`None` or empty `arrays` is falsy, giving `False`; otherwise the
generator's `.__next__()` yields the first exact-name match (a truthy
object, giving `True`) or raises `StopIteration` when no entry matches
exactly. -/
def udf_exists (listing : ListingResult) (udf_name : String) :
    Except PyError Bool :=
  match listing with
  | .failure => .error .listingFailed
  | .degenerate => .ok false
  | .arrays [] => .ok false
  | .arrays (a :: rest) =>
    match (a :: rest).find? (fun e => e.name == udf_name) with
    | some _ => .ok true
    | none => .error .stopIteration

/-- Which remote write `add_public_udf` decided on. -/
inductive RegKind where
  | registered
  | updated
  deriving DecidableEq, Repr

/-- The remote write issued by `add_public_udf`: which call, under
which namespace and name, carrying which callable. -/
structure RegAction where
  kind : RegKind
  ns : String
  name : String
  code : PyFunction
  deriving DecidableEq, Repr

/-- Embedding of `add_public_udf` from `src/register_udfs.py`:
`udf_code = types.FunctionType(fnc.__code__, {})` strips the globals,
`udf_name = udf_code.__name__` is the function's own name, and the
manager registers when `udf_exists` answers `False`, updates when it
answers `True`, and propagates an error raised by the lookup.  The
remote's answer to the listing call is the `listing` argument; the
namespace argument defaults to "TileDB-Inc" in the source (see
`add_public_udf_default`). -/
def add_public_udf (fnc : PyFunction) (ns : String)
    (listing : ListingResult) : Except PyError RegAction :=
  let udf_code := FunctionType fnc.code []
  let udf_name := udf_code.name
  match udf_exists listing udf_name with
  | .error e => .error e
  | .ok true =>
    .ok { kind := .updated, ns := ns, name := udf_name, code := udf_code }
  | .ok false =>
    .ok { kind := .registered, ns := ns, name := udf_name, code := udf_code }

/-- `add_public_udf` with the source's default namespace
`namespace="TileDB-Inc"`. -/
def add_public_udf_default (fnc : PyFunction) (listing : ListingResult) :
    Except PyError RegAction :=
  add_public_udf fnc "TileDB-Inc" listing

/-- Modelled from the spec: the remote `register_generic_udf` call
creates exactly one new entry under the given name. -/
def register_generic_udf (reg : List RegistryEntry) (udf_code : PyFunction)
    (udf_name : String) : List RegistryEntry :=
  reg ++ [{ name := udf_name, body := udf_code }]

/-- Modelled from the spec: the remote `update_generic_udf` call
replaces the stored body in place, whole-object, for the entries
bearing the name. -/
def update_generic_udf (reg : List RegistryEntry) (udf_code : PyFunction)
    (udf_name : String) : List RegistryEntry :=
  reg.map (fun e => if e.name == udf_name then { e with body := udf_code }
    else e)

/-- One run of the registration manager for one catalog function
against registry `reg`, the remote listing answering honestly from
`reg`, and the decided write applied to `reg`. -/
def run_registration (reg : List RegistryEntry) (fnc : PyFunction)
    (ns : String) : Except PyError (List RegistryEntry) :=
  match add_public_udf fnc ns
      (.arrays (list_arrays reg (FunctionType fnc.code []).name)) with
  | .error e => .error e
  | .ok a =>
    match a.kind with
    | .registered => .ok (register_generic_udf reg a.code a.name)
    | .updated => .ok (update_generic_udf reg a.code a.name)

/-- Number of registry entries bearing a given name. -/
def countName (reg : List RegistryEntry) (nm : String) : Nat :=
  (reg.filter (fun e => e.name == nm)).length

/-! ### Claim C4: idempotent registration -/

theorem countName_cons (x : RegistryEntry) (rest : List RegistryEntry)
    (q : String) :
    countName (x :: rest) q
      = countName rest q + (if x.name == q then 1 else 0) := by
  simp only [countName, List.filter_cons]
  split
  · simp [List.length_cons]
  · simp

/-- Updating bodies in place never changes how many entries bear any
given name. -/
theorem countName_update (reg : List RegistryEntry) (c : PyFunction)
    (nm q : String) :
    countName (update_generic_udf reg c nm) q = countName reg q := by
  induction reg with
  | nil => rfl
  | cons e rest ih =>
    show countName
      ((if e.name == nm then { e with body := c } else e)
        :: update_generic_udf rest c nm) q = countName (e :: rest) q
    rw [countName_cons, countName_cons, ih]
    have hname : (if e.name == nm then { e with body := c } else e).name
        = e.name := by
      split <;> rfl
    rw [hname]

/-- After an in-place update, every entry bearing the name carries the
new body. -/
theorem update_body (reg : List RegistryEntry) (c : PyFunction)
    (nm : String) :
    ∀ e ∈ update_generic_udf reg c nm, e.name = nm → e.body = c := by
  intro e he hn
  simp only [update_generic_udf, List.mem_map] at he
  obtain ⟨e0, he0, rfl⟩ := he
  by_cases h : (e0.name == nm) = true
  · simp [h]
  · rw [if_neg h] at hn ⊢
    exact absurd (by simp [hn]) h

/-- When the listing contains an entry with exactly the queried name,
`udf_exists` answers `True`. -/
theorem udf_exists_of_mem (l : List RegistryEntry) (nm : String)
    (e : RegistryEntry) (he : e ∈ l) (hn : e.name = nm) :
    udf_exists (.arrays l) nm = .ok true := by
  cases l with
  | nil => cases he
  | cons a rest =>
    have hfind : ((a :: rest).find? (fun x => x.name == nm)).isSome :=
      List.find?_isSome.mpr ⟨e, he, by simp [hn]⟩
    obtain ⟨w, hw⟩ := Option.isSome_iff_exists.mp hfind
    simp [udf_exists, hw]

/-- When the registry holds an entry named exactly after the catalog
function, the manager run takes the update branch. -/
theorem run_registration_update (reg : List RegistryEntry)
    (fnc : PyFunction) (ns : String) (e : RegistryEntry) (he : e ∈ reg)
    (hn : e.name = fnc.code.co_name) :
    run_registration reg fnc ns
      = .ok (update_generic_udf reg (FunctionType fnc.code [])
          fnc.code.co_name) := by
  have hmem : e ∈ list_arrays reg fnc.code.co_name :=
    List.mem_filter.mpr ⟨he, by rw [hn]; exact nameHasSub_refl _⟩
  have hex : udf_exists (.arrays (list_arrays reg fnc.code.co_name))
      fnc.code.co_name = .ok true :=
    udf_exists_of_mem _ _ e hmem hn
  show run_registration reg fnc ns = _
  unfold run_registration add_public_udf
  simp only [FunctionType, PyFunction.name]
  rw [hex]

/-- C4: running the registration for the same operation a second time,
against a registry already consistent with the first run (exactly one
entry bears the operation's name), succeeds with no error and yields a
registry that still has exactly one entry for that name, whose body is
the globals-stripped callable stored by the second run — an in-place
update, not a duplicate — given the spec's semantics for the remote
register (create one entry) and update (replace body in place)
calls. -/
theorem c4_idempotent_registration (reg : List RegistryEntry)
    (fnc : PyFunction) (ns : String)
    (h : countName reg fnc.code.co_name = 1) :
    ∃ reg2, run_registration reg fnc ns = .ok reg2 ∧
      countName reg2 fnc.code.co_name = 1 ∧
      ∀ e ∈ reg2, e.name = fnc.code.co_name →
        e.body = FunctionType fnc.code [] := by
  have hpos : 0 < (reg.filter (fun e => e.name == fnc.code.co_name)).length := by
    unfold countName at h
    omega
  have hne : reg.filter (fun e => e.name == fnc.code.co_name) ≠ [] := by
    intro hnil
    rw [hnil] at hpos
    simp at hpos
  obtain ⟨e, he⟩ := List.exists_mem_of_ne_nil _ hne
  have hmem := (List.mem_filter.mp he).1
  have hname : e.name = fnc.code.co_name := by
    have h2 := (List.mem_filter.mp he).2
    simpa using h2
  refine ⟨_, run_registration_update reg fnc ns e hmem hname, ?_, ?_⟩
  · rw [countName_update]
    exact h
  · exact update_body reg _ _


/-- Concrete code object: catalog version of "ingest_csv" as first
registered (body v1). -/
def cobjV1 : CodeObject := { co_name := "ingest_csv", params := [], instrs := "v1" }

/-- Concrete code object: catalog version of "ingest_csv" at the second
run (body v2). -/
def cobjV2 : CodeObject := { co_name := "ingest_csv", params := [], instrs := "v2" }

/-- Concrete catalog function for the second run, carrying a captured
global. -/
def fncV2 : PyFunction := { code := cobjV2, globals := [("tiledb", "module")] }

/-- Concrete registry consistent with the first run: exactly one entry
named "ingest_csv". -/
def regV1 : List RegistryEntry := [{ name := "ingest_csv", body := FunctionType cobjV1 [] }]

/-- Witness for C4 at a concrete registry holding exactly one entry for
the operation's name ("ingest_csv", stored body v1), re-run with a
changed catalog function (body v2). -/
theorem c4_idempotent_registration_witness :
    countName regV1 fncV2.code.co_name = 1 ∧
    ∃ reg2, run_registration regV1 fncV2 "TileDB-Inc" = .ok reg2 ∧
      countName reg2 fncV2.code.co_name = 1 ∧
      ∀ e ∈ reg2, e.name = fncV2.code.co_name →
        e.body = FunctionType fncV2.code [] :=
  ⟨by decide, c4_idempotent_registration regV1 fncV2 "TileDB-Inc" (by decide)⟩

/-! ### Claims C5 and C6: the existence lookup -/

/-- Concrete listed entry whose name contains the query "ingest_csv"
without matching it exactly. -/
def entryTest : RegistryEntry := { name := "test_ingest_csv", body := FunctionType { co_name := "test_ingest_csv", params := [], instrs := "t" } [] }

/-- Concrete listed entry exactly named "ingest_csv". -/
def entryExact : RegistryEntry := { name := "ingest_csv", body := FunctionType { co_name := "ingest_csv", params := [], instrs := "t" } [] }

/-- C5 (code behaviour at the failing input): when the listing is
non-empty but contains no exact name match — here the search for
"ingest_csv" listed the entry named "test_ingest_csv" — `udf_exists`
does not terminate normally with `False`: the generator's
`.__next__()` raises a bare `StopIteration`.  It does answer `True` on
an exact match and `False` on an empty or `None` listing. -/
theorem c5_udf_exists_eval :
    udf_exists (.arrays [entryTest]) "ingest_csv" = .error .stopIteration ∧
    udf_exists (.arrays [entryExact]) "ingest_csv" = .ok true ∧
    udf_exists (.arrays []) "ingest_csv" = .ok false ∧
    udf_exists .degenerate "ingest_csv" = .ok false :=
  ⟨rfl, rfl, rfl, rfl⟩

/-- Concrete catalog function named "ingest_csv" with no captured
globals, for exercising `add_public_udf` on degenerate listings. -/
def fncB : PyFunction := { code := { co_name := "ingest_csv", params := [], instrs := "b" }, globals := [] }

/-- C6 (code behaviour): a raised listing call does propagate out of
`add_public_udf` as an error, but a listing answer of `None` or of an
empty list is conflated with "entry absent": the manager proceeds to a
fresh registration instead of surfacing a distinct error. -/
theorem c6_listing_conflation_eval :
    add_public_udf fncB "TileDB-Inc" .failure = .error .listingFailed ∧
    add_public_udf fncB "TileDB-Inc" .degenerate
      = .ok { kind := .registered, ns := "TileDB-Inc", name := "ingest_csv",
              code := FunctionType fncB.code [] } ∧
    add_public_udf fncB "TileDB-Inc" (.arrays [])
      = .ok { kind := .registered, ns := "TileDB-Inc", name := "ingest_csv",
              code := FunctionType fncB.code [] } :=
  ⟨rfl, rfl, rfl⟩

/-! ### Claim C7: globals-stripped transmission -/

/-- C7: whatever write `add_public_udf` decides on, the callable it
transmits is `types.FunctionType(fnc.__code__, {})`: its global
environment is empty and its code object is exactly the operation's
(so it consists of the operation's code and parameter signature only);
the registry name used is exactly the operation's own function name,
qualified only by the supplied namespace, which defaults to
"TileDB-Inc". -/
theorem c7_stripped_transmission (fnc : PyFunction) (ns : String)
    (listing : ListingResult) :
    (∀ a : RegAction, add_public_udf fnc ns listing = .ok a →
      a.code.globals = [] ∧ a.code.code = fnc.code ∧
      a.name = fnc.code.co_name ∧ a.ns = ns) ∧
    add_public_udf_default fnc listing
      = add_public_udf fnc "TileDB-Inc" listing := by
  refine ⟨?_, rfl⟩
  intro a ha
  simp only [add_public_udf] at ha
  split at ha
  · exact absurd ha (by simp)
  · cases ha
    exact ⟨rfl, rfl, rfl, rfl⟩
  · cases ha
    exact ⟨rfl, rfl, rfl, rfl⟩

/-- Concrete catalog operation with a non-empty global environment
(imported modules), as the catalog functions have in the source. -/
def fncCsv : PyFunction := { code := { co_name := "ingest_csv", params := ["source_csv", "target", "key", "secret"], instrs := "b" }, globals := [("tiledb", "module"), ("np", "module")] }

/-- Witness for C7: `fncCsv` (which carries captured globals),
registered at a concrete listing answer. -/
theorem c7_stripped_transmission_witness :
    (FunctionType fncCsv.code []).globals = [] ∧
    (FunctionType fncCsv.code []).code = fncCsv.code ∧
    "ingest_csv" = fncCsv.code.co_name ∧
    "TileDB-Inc" = "TileDB-Inc" :=
  (c7_stripped_transmission fncCsv "TileDB-Inc" (.arrays [])).1
    { kind := .registered, ns := "TileDB-Inc", name := "ingest_csv",
      code := FunctionType fncCsv.code [] }
    rfl

/-! ### The `ingest_csv` UDF (`src/public_udfs.py`) and claim C8 -/

/-- Local (in-process) state visible to `ingest_csv`: the process-wide
default TileDB context configuration (set by `tiledb.default_ctx`),
plus an abstract remainder standing for every other piece of local
process state, which `ingest_csv` never touches. -/
structure LocalState where
  default_ctx : Option (List (String × String))
  other_state : List (String × String)
  deriving DecidableEq, Repr

/-- Remote array-store state, as the record of ingestions performed:
`(target, source_csv)` events.  Modelled from the spec: the store is
external; each `tiledb.from_csv` call is one ingest-from-tabular-source
operation against it. -/
structure RemoteState where
  ingested : List (String × String)
  deriving DecidableEq, Repr

/-- Modelled from the spec: the external
`tiledb.from_csv(target, source_csv, **kwargs)` call, recorded as a
single ingestion event against the array store (the keyword surface is
forwarded unchanged to the external library and does not affect which
state is mutated). -/
def from_csv (remote : RemoteState) (target source_csv : String) :
    RemoteState :=
  { remote with ingested := remote.ingested ++ [(target, source_csv)] }

/-- The S3 credential configuration dictionary `ingest_csv` builds. -/
def csv_config (key secret : String) : List (String × String) :=
  [("vfs.s3.aws_access_key_id", key), ("vfs.s3.aws_secret_access_key", secret)]

/-- Embedding of `ingest_csv` from `src/public_udfs.py`: build the
credential configuration, install it as the process-wide default
context (`tiledb.default_ctx(config)`), issue the single
`tiledb.from_csv` ingestion call, and return "done".  State is passed
explicitly to expose the local- and remote-state effects. -/
def ingest_csv (source_csv target key secret : String)
    (st : LocalState) (remote : RemoteState) :
    LocalState × RemoteState × String :=
  let config := csv_config key secret
  let st2 := { st with default_ctx := some config }
  let remote2 := from_csv remote target source_csv
  (st2, remote2, "done")

/-- C8 counterexample: `ingest_csv` does mutate local process state —
at a concrete input it installs the credential configuration as the
process-wide default TileDB context, so the local state after the call
differs from the local state before it. -/
theorem c8_counterexample :
    (ingest_csv "s3://b/in.csv" "tiledb://ns/s3://b/arr" "KEY" "SECRET"
      { default_ctx := none, other_state := [] }
      { ingested := [] }).1
    ≠ { default_ctx := none, other_state := [] } := by
  decide

/-- C8 (amended): the only remote mutation performed by `ingest_csv`
is the single `from_csv` ingestion call, and the only local mutation
is setting the process-wide default context to the credential
configuration; every other piece of local state is unchanged, and the
call returns "done". -/
theorem c8_frame_amended (source_csv target key secret : String)
    (st : LocalState) (remote : RemoteState) :
    (ingest_csv source_csv target key secret st remote).1
      = { st with default_ctx := some (csv_config key secret) } ∧
    (ingest_csv source_csv target key secret st remote).1.other_state
      = st.other_state ∧
    (ingest_csv source_csv target key secret st remote).2.1
      = from_csv remote target source_csv ∧
    (ingest_csv source_csv target key secret st remote).2.1.ingested
      = remote.ingested ++ [(target, source_csv)] ∧
    (ingest_csv source_csv target key secret st remote).2.2 = "done" :=
  ⟨rfl, rfl, rfl, rfl, rfl⟩
